import Mathlib

/-!
Verification of the Mini Math Compiler front end (lexer, parser, semantic
analyzer). The definitions below are a shallow embedding of the TypeScript
sources: `src/src/compiler/lexer.ts`, the parser module, and
`src/src/compiler/semantic.ts`. Strings are modelled as `List Char`; the
JavaScript `number` values carried by tokens and literal nodes are modelled
as exact rationals (`ℚ`); the mutable lexer/parser/analyzer objects are
modelled by explicit state passing, and the parser's thrown exceptions by
`Except`, whose error value carries the state at the throw.
-/

namespace MiniMath

/-- The 13 token kinds of `types.ts` (`TokenType`). -/
inductive TokenType where
  | INTEGER
  | FLOAT
  | IDENTIFIER
  | PLUS
  | MINUS
  | STAR
  | SLASH
  | CARET
  | LPAREN
  | RPAREN
  | EQUALS
  | EOF
  | ERROR
  deriving DecidableEq, Repr

/-- Source position (`types.ts` `Position`). -/
structure Position where
  line : Nat
  column : Nat
  deriving DecidableEq, Repr

/-- A token (`types.ts` `Token`). The optional `literal` carries the numeric
value for INTEGER and FLOAT tokens; JavaScript numbers are modelled as exact
rationals. -/
structure Token where
  type : TokenType
  lexeme : List Char
  position : Position
  literal : Option ℚ := none
  deriving DecidableEq, Repr

/-- `lexer.ts` `isDigit`: `c >= '0' && c <= '9'`. -/
def isDigit (c : Char) : Bool :=
  decide ('0' ≤ c) && decide (c ≤ '9')

/-- `lexer.ts` `isAlpha`: letters or underscore. -/
def isAlpha (c : Char) : Bool :=
  (decide ('a' ≤ c) && decide (c ≤ 'z')) ||
  (decide ('A' ≤ c) && decide (c ≤ 'Z')) || c == '_'

/-- `lexer.ts` `isAlphaNumeric`. -/
def isAlphaNumeric (c : Char) : Bool :=
  isAlpha c || isDigit c

/-- The lexer's `while (isDigit(peek())) advance()` loop: split off the
maximal run of leading digits. -/
def takeDigits : List Char → List Char × List Char
  | [] => ([], [])
  | c :: cs =>
    if isDigit c then
      let p := takeDigits cs
      (c :: p.1, p.2)
    else ([], c :: cs)

/-- The identifier loop: split off the maximal run of alphanumerics. -/
def takeAlphaNum : List Char → List Char × List Char
  | [] => ([], [])
  | c :: cs =>
    if isAlphaNumeric c then
      let p := takeAlphaNum cs
      (c :: p.1, p.2)
    else ([], c :: cs)

/-- Numeric value of a run of decimal digits. -/
def digitsVal (ds : List Char) : Nat :=
  ds.foldl (fun a c => 10 * a + (c.toNat - 48)) 0

/-- Model of JavaScript `parseFloat` on the lexemes the lexer builds (a digit
run, optionally followed by a dot and a second digit run): the exact decimal
value as a rational. (JavaScript rounds to the nearest IEEE double; the exact
rational is the idealization of that value.) -/
def parseFloat (l : List Char) : ℚ :=
  let intPart := l.takeWhile (fun c => c ≠ '.')
  let rest := l.dropWhile (fun c => c ≠ '.')
  match rest with
  | [] => (digitsVal intPart : ℚ)
  | _ :: frac => (digitsVal intPart : ℚ) + (digitsVal frac : ℚ) / (10 : ℚ) ^ frac.length

/-- Result of one `scanToken` step: the token emitted (none for whitespace),
the remaining characters, and the updated line/column. The lexer's integer
cursor over `source` is modelled by the remaining suffix `rest`; the consumed
lexeme (`source.substring(start, current)`) is reconstructed in the token. -/
structure ScanResult where
  tok : Option Token
  rest : List Char
  line : Nat
  column : Nat
  deriving Repr

/-- A single-character token (the `addToken` calls for `+ - * / ^ ( ) =`). -/
def single (t : TokenType) (c : Char) (cs : List Char) (line col : Nat) : ScanResult :=
  { tok := some { type := t, lexeme := [c], position := ⟨line, col⟩ },
    rest := cs, line := line, column := col + 1 }

/-- `lexer.ts` `number()`: scan the integer part; consume a `.` and a
fractional part only when the `.` is immediately followed by a digit
(`peek() === '.' && isDigit(peekNext())`); classify FLOAT or INTEGER and
store the parsed value as `literal`. -/
def number (c : Char) (cs : List Char) (line col : Nat) : ScanResult :=
  let p := takeDigits cs
  let intLexeme := c :: p.1
  let intResult : ScanResult :=
    { tok := some { type := TokenType.INTEGER, lexeme := intLexeme,
                    position := ⟨line, col⟩, literal := some (parseFloat intLexeme) },
      rest := p.2, line := line, column := col + intLexeme.length }
  match p.2 with
  | '.' :: c2 :: more =>
    if isDigit c2 then
      let q := takeDigits (c2 :: more)
      let lexeme := c :: p.1 ++ '.' :: q.1
      { tok := some { type := TokenType.FLOAT, lexeme := lexeme,
                      position := ⟨line, col⟩, literal := some (parseFloat lexeme) },
        rest := q.2, line := line, column := col + lexeme.length }
    else intResult
  | _ => intResult

/-- `lexer.ts` `identifier()`. -/
def identifier (c : Char) (cs : List Char) (line col : Nat) : ScanResult :=
  let p := takeAlphaNum cs
  let lexeme := c :: p.1
  { tok := some { type := TokenType.IDENTIFIER, lexeme := lexeme, position := ⟨line, col⟩ },
    rest := p.2, line := line, column := col + lexeme.length }

/-- `lexer.ts` `scanToken()`: one step of the scanner on the first remaining
character `c` (the `switch (c)` statement); `col` is the start column of the
lexeme. -/
def scanToken (c : Char) (cs : List Char) (line col : Nat) : ScanResult :=
  match c with
  | '+' => single TokenType.PLUS c cs line col
  | '-' => single TokenType.MINUS c cs line col
  | '*' => single TokenType.STAR c cs line col
  | '/' => single TokenType.SLASH c cs line col
  | '^' => single TokenType.CARET c cs line col
  | '(' => single TokenType.LPAREN c cs line col
  | ')' => single TokenType.RPAREN c cs line col
  | '=' => single TokenType.EQUALS c cs line col
  | ' ' | '\r' | '\t' =>
    { tok := none, rest := cs, line := line, column := col + 1 }
  | '\n' =>
    { tok := none, rest := cs, line := line + 1, column := 1 }
  | c =>
    if isDigit c then number c cs line col
    else if isAlpha c then identifier c cs line col
    else
      { tok := some { type := TokenType.ERROR, lexeme := [c], position := ⟨line, col⟩ },
        rest := cs, line := line, column := col + 1 }

/-- The lexer's main `tokenize` loop (without the final EOF append): scan
tokens until the characters are exhausted, returning the tokens and the final
line/column (at which the EOF token will be placed). `fuel` only forces the
recursion to be structural (so that the definition computes); every scan step
consumes at least one character, so the `source.length` supplied by
`tokenize` always suffices and the fuel-exhaustion case is unreachable
from `tokenize`. -/
def scanTokens (fuel : Nat) (chars : List Char) (line col : Nat) : List Token × Nat × Nat :=
  match fuel, chars with
  | _, [] => ([], line, col)
  | 0, _ :: _ => ([], line, col)
  | fuel+1, c :: cs =>
    let r := scanToken c cs line col
    let p := scanTokens fuel r.rest r.line r.column
    (r.tok.toList ++ p.1, p.2)

/-- `lexer.ts` `tokenize(source)`: scan the whole source and append exactly
one EOF token (empty lexeme) at the final position. -/
def tokenize (source : List Char) : List Token :=
  let r := scanTokens source.length source 1 1
  r.1 ++ [{ type := TokenType.EOF, lexeme := [], position := ⟨r.2.1, r.2.2⟩ }]

/-- The two data types (`types.ts` `DataType`). -/
inductive DataType where
  | Integer
  | Float
  deriving DecidableEq, Repr

/-- AST nodes (`types.ts` `ASTNode`, a tagged union of five shapes). The
optional `resolvedType` annotation is absent after parsing and filled in by
the semantic analyzer; `Assignment` carries no annotation of its own. The
`operator` fields hold the operator lexeme string, as in the TS source. -/
inductive ASTNode where
  | Assignment (name : List Char) (value : ASTNode) (position : Position)
  | BinaryExpr (operator : List Char) (left : ASTNode) (right : ASTNode)
      (position : Position) (resolvedType : Option DataType)
  | UnaryExpr (operator : List Char) (operand : ASTNode)
      (position : Position) (resolvedType : Option DataType)
  | Literal (value : ℚ) (dataType : DataType)
      (position : Position) (resolvedType : Option DataType)
  | Variable (name : List Char) (position : Position) (resolvedType : Option DataType)
  deriving DecidableEq, Repr

/-- `types.ts` `CompilerPhase` (the TS string `'syntax'` is the constructor
`syntaxPhase` here). -/
inductive CompilerPhase where
  | lexical
  | syntaxPhase
  | semantic
  deriving DecidableEq, Repr

/-- `types.ts` `CompilerError`. -/
structure CompilerError where
  phase : CompilerPhase
  message : List Char
  position : Position
  expected : Option (List Char) := none
  actual : Option (List Char) := none
  variableName : Option (List Char) := none
  deriving DecidableEq, Repr

/-- The TokenType string of each token kind, as the parser passes it to
syntax errors' `expected`/`actual` fields. -/
def typeName : TokenType → List Char
  | TokenType.INTEGER => "INTEGER".toList
  | TokenType.FLOAT => "FLOAT".toList
  | TokenType.IDENTIFIER => "IDENTIFIER".toList
  | TokenType.PLUS => "PLUS".toList
  | TokenType.MINUS => "MINUS".toList
  | TokenType.STAR => "STAR".toList
  | TokenType.SLASH => "SLASH".toList
  | TokenType.CARET => "CARET".toList
  | TokenType.LPAREN => "LPAREN".toList
  | TokenType.RPAREN => "RPAREN".toList
  | TokenType.EQUALS => "EQUALS".toList
  | TokenType.EOF => "EOF".toList
  | TokenType.ERROR => "ERROR".toList

/-- The parser's mutable cursor and error list (`class Parser`'s `current`
and `errors` fields). The token array is immutable in TS, so it is passed
separately to every function rather than kept in the state. -/
structure PState where
  current : Nat
  errors : List CompilerError
  deriving DecidableEq, Repr

/-- Used when `tokens[i]` would be out of range. The scanner's contract
guarantees the parser a token list ending in EOF, so the TS code never
actually reads past the list; reading EOF there keeps the model total. -/
def eofToken : Token :=
  { type := TokenType.EOF, lexeme := [], position := ⟨0, 0⟩ }

/-- `peek()`: the current token, unconsumed. -/
def peek (tokens : List Token) (s : PState) : Token :=
  tokens.getD s.current eofToken

/-- `previous()`: the token before the cursor. -/
def previous (tokens : List Token) (s : PState) : Token :=
  tokens.getD (s.current - 1) eofToken

/-- `isAtEnd()`. -/
def isAtEnd (tokens : List Token) (s : PState) : Bool :=
  (peek tokens s).type == TokenType.EOF

/-- `advance()`: move past the current token (unless at EOF) and return it. -/
def advance (tokens : List Token) (s : PState) : Token × PState :=
  let s' := if isAtEnd tokens s then s else { s with current := s.current + 1 }
  (previous tokens s', s')

/-- `check(type)`. -/
def check (tokens : List Token) (s : PState) (t : TokenType) : Bool :=
  if isAtEnd tokens s then false else (peek tokens s).type == t

/-- `match(...types)` (named `matchTok` since `match` is a Lean keyword):
try each type, consuming the token on the first hit. -/
def matchTok (tokens : List Token) (s : PState) : List TokenType → Bool × PState
  | [] => (false, s)
  | t :: rest =>
    if check tokens s t then (true, (advance tokens s).2) else matchTok tokens s rest

/-- `lookAhead(n)`. -/
def lookAhead (tokens : List Token) (s : PState) (n : Nat) : Option Token :=
  tokens.get? (s.current + n)

/-- `addError(...)`: push one syntax-phase error. -/
def addError (s : PState) (message : List Char) (position : Position)
    (expected actual : Option (List Char)) : PState :=
  { s with
    errors := s.errors ++
      [{ phase := CompilerPhase.syntaxPhase, message := message, position := position,
         expected := expected, actual := actual }] }

/-- `expect(type, message)`: consume the expected token or record an error
and throw. The thrown `Error` of the TS code is the `Except.error` case; it
carries the parser state (with the error just pushed) at the throw. -/
def expect (tokens : List Token) (s : PState) (t : TokenType) (message : List Char) :
    Except PState (Token × PState) :=
  if check tokens s t then Except.ok (advance tokens s)
  else
    let token := peek tokens s
    Except.error (addError s message token.position (some (typeName t)) (some (typeName token.type)))

/-- `createLiteralNode(token, dataType)`. -/
def createLiteralNode (token : Token) (dataType : DataType) : ASTNode :=
  ASTNode.Literal (token.literal.getD (parseFloat token.lexeme)) dataType token.position none

/-- `createVariableNode(token)`. -/
def createVariableNode (token : Token) : ASTNode :=
  ASTNode.Variable token.lexeme token.position none

mutual

/-- `parseStatement()`: skip ERROR tokens (the leading `while` loop is the
self-recursive first branch), return null at EOF, parse an assignment when
the lookahead sees IDENTIFIER EQUALS, else a bare expression. The `fuel`
argument only forces termination; `parse` supplies more than any input can
use, so the 0 case is never reached from `parse`. -/
def parseStatement (tokens : List Token) : Nat → PState → Except PState (Option ASTNode × PState)
  | 0, s => Except.error s
  | fuel+1, s =>
    if check tokens s TokenType.ERROR then
      parseStatement tokens fuel (advance tokens s).2
    else if isAtEnd tokens s then
      Except.ok (none, s)
    else if check tokens s TokenType.IDENTIFIER &&
        (match lookAhead tokens s 1 with
         | some t => t.type == TokenType.EQUALS
         | none => false) then
      do
        let (node, s1) ← parseAssignment tokens fuel s
        Except.ok (some node, s1)
    else
      do
        let (node, s1) ← parseExpression tokens fuel s
        Except.ok (some node, s1)

/-- `parseAssignment()`: consume IDENTIFIER and EQUALS, then the value
expression. -/
def parseAssignment (tokens : List Token) : Nat → PState → Except PState (ASTNode × PState)
  | 0, s => Except.error s
  | fuel+1, s =>
    match advance tokens s with
    | (nameToken, s1) =>
      match advance tokens s1 with
      | (_, s2) =>
        do
          let (value, s3) ← parseExpression tokens fuel s2
          Except.ok (ASTNode.Assignment nameToken.lexeme value nameToken.position, s3)

/-- `parseExpression()`. -/
def parseExpression (tokens : List Token) : Nat → PState → Except PState (ASTNode × PState)
  | 0, s => Except.error s
  | fuel+1, s => parseAdditive tokens fuel s

/-- `parseAdditive()`: one multiplicative operand, then the `while` loop. -/
def parseAdditive (tokens : List Token) : Nat → PState → Except PState (ASTNode × PState)
  | 0, s => Except.error s
  | fuel+1, s =>
    do
      let (left, s1) ← parseMultiplicative tokens fuel s
      parseAdditiveLoop tokens fuel left s1

/-- The `while (this.match('PLUS', 'MINUS'))` loop of `parseAdditive`,
folding left. -/
def parseAdditiveLoop (tokens : List Token) : Nat → ASTNode → PState → Except PState (ASTNode × PState)
  | 0, _, s => Except.error s
  | fuel+1, left, s =>
    match matchTok tokens s [TokenType.PLUS, TokenType.MINUS] with
    | (true, s1) =>
      let operator := (previous tokens s1).lexeme
      let position := (previous tokens s1).position
      do
        let (right, s2) ← parseMultiplicative tokens fuel s1
        parseAdditiveLoop tokens fuel (ASTNode.BinaryExpr operator left right position none) s2
    | (false, s1) => Except.ok (left, s1)

/-- `parseMultiplicative()`. -/
def parseMultiplicative (tokens : List Token) : Nat → PState → Except PState (ASTNode × PState)
  | 0, s => Except.error s
  | fuel+1, s =>
    do
      let (left, s1) ← parsePower tokens fuel s
      parseMultiplicativeLoop tokens fuel left s1

/-- The `while (this.match('STAR', 'SLASH'))` loop of `parseMultiplicative`,
folding left. -/
def parseMultiplicativeLoop (tokens : List Token) : Nat → ASTNode → PState → Except PState (ASTNode × PState)
  | 0, _, s => Except.error s
  | fuel+1, left, s =>
    match matchTok tokens s [TokenType.STAR, TokenType.SLASH] with
    | (true, s1) =>
      let operator := (previous tokens s1).lexeme
      let position := (previous tokens s1).position
      do
        let (right, s2) ← parsePower tokens fuel s1
        parseMultiplicativeLoop tokens fuel (ASTNode.BinaryExpr operator left right position none) s2
    | (false, s1) => Except.ok (left, s1)

/-- `parsePower()`: right-associative, recursing into itself for the right
operand. The operator is the literal `'^'` string, as in the TS source. -/
def parsePower (tokens : List Token) : Nat → PState → Except PState (ASTNode × PState)
  | 0, s => Except.error s
  | fuel+1, s =>
    do
      let (left, s1) ← parseUnary tokens fuel s
      match matchTok tokens s1 [TokenType.CARET] with
      | (true, s2) =>
        let position := (previous tokens s2).position
        do
          let (right, s3) ← parsePower tokens fuel s2
          Except.ok (ASTNode.BinaryExpr (['^']) left right position none, s3)
      | (false, s2) => Except.ok (left, s2)

/-- `parseUnary()`: prefix `-`/`+`, chainable by self-recursion; on no match
fall through to `parsePrimary` with the cursor where it was. -/
def parseUnary (tokens : List Token) : Nat → PState → Except PState (ASTNode × PState)
  | 0, s => Except.error s
  | fuel+1, s =>
    match matchTok tokens s [TokenType.MINUS, TokenType.PLUS] with
    | (true, s1) =>
      let operator := (previous tokens s1).lexeme
      let position := (previous tokens s1).position
      do
        let (operand, s2) ← parseUnary tokens fuel s1
        Except.ok (ASTNode.UnaryExpr operator operand position none, s2)
    | (false, _) => parsePrimary tokens fuel s

/-- `parsePrimary()`: literal, variable, parenthesized expression, or the
"Expected expression" syntax error (recorded, then thrown). -/
def parsePrimary (tokens : List Token) : Nat → PState → Except PState (ASTNode × PState)
  | 0, s => Except.error s
  | fuel+1, s =>
    match matchTok tokens s [TokenType.INTEGER] with
    | (true, s1) => Except.ok (createLiteralNode (previous tokens s1) DataType.Integer, s1)
    | (false, _) =>
      match matchTok tokens s [TokenType.FLOAT] with
      | (true, s2) => Except.ok (createLiteralNode (previous tokens s2) DataType.Float, s2)
      | (false, _) =>
        match matchTok tokens s [TokenType.IDENTIFIER] with
        | (true, s3) => Except.ok (createVariableNode (previous tokens s3), s3)
        | (false, _) =>
          match matchTok tokens s [TokenType.LPAREN] with
          | (true, s4) =>
            do
              let (expr, s5) ← parseExpression tokens fuel s4
              let (_, s6) ← expect tokens s5 TokenType.RPAREN "Expected ')' after expression".toList
              Except.ok (expr, s6)
          | (false, _) =>
            let token := peek tokens s
            Except.error (addError s "Expected expression".toList token.position
              (some "expression".toList) (some (typeName token.type)))

end

/-- The `while (!this.isAtEnd())` loop of `parse()`: parse statements,
pushing non-null results; the `catch` on a thrown error breaks out with
whatever statements were already collected. -/
def parseLoop (tokens : List Token) : Nat → PState → List ASTNode → List ASTNode × PState
  | 0, s, acc => (acc, s)
  | fuel+1, s, acc =>
    if isAtEnd tokens s then (acc, s)
    else
      match parseStatement tokens fuel s with
      | Except.ok (some stmt, s') => parseLoop tokens fuel s' (acc ++ [stmt])
      | Except.ok (none, s') => parseLoop tokens fuel s' acc
      | Except.error s' => (acc, s')

/-- `parser.ts` `ParseResult`. -/
structure ParseResult where
  ast : List ASTNode
  errors : List CompilerError
  deriving DecidableEq, Repr

/-- `parse(tokens)`: run the statement loop from cursor 0 with no errors.
The fuel bound exceeds what any run can consume (each parser function call
either consumes a token or moves down the ≤ 6-level grammar chain). -/
def parse (tokens : List Token) : ParseResult :=
  let r := parseLoop tokens (10 * tokens.length + 20) ⟨0, []⟩ []
  { ast := r.1, errors := r.2.errors }

/-- `types.ts` `SymbolEntry`. -/
structure SymbolEntry where
  name : List Char
  type : DataType
  definedAt : Position
  deriving DecidableEq, Repr

/-- The symbol table: the JS `Map<string, SymbolEntry>` modelled as an
association list with `Map.set` semantics (overwrite in place when the key
is present, else append), so keys stay unique and insertion order is kept. -/
abbrev SymbolTable := List (List Char × SymbolEntry)

/-- `Map.set(k, v)`. -/
def mapSet (m : SymbolTable) (k : List Char) (v : SymbolEntry) : SymbolTable :=
  match m with
  | [] => [(k, v)]
  | (k', v') :: rest => if k' = k then (k, v) :: rest else (k', v') :: mapSet rest k v

/-- `Map.get(k)`. -/
def mapGet (m : SymbolTable) (k : List Char) : Option SymbolEntry :=
  match m with
  | [] => none
  | (k', v') :: rest => if k' = k then some v' else mapGet rest k

/-- The analyzer's mutable fields (`class SemanticAnalyzer`): symbol table
and accumulated semantic errors. -/
structure SemState where
  symbolTable : SymbolTable
  errors : List CompilerError
  deriving DecidableEq, Repr

/-- `semantic.ts` `addError`: push one semantic-phase error. -/
def addSemError (st : SemState) (message : List Char) (position : Position)
    (variableName : Option (List Char)) : SemState :=
  { st with
    errors := st.errors ++
      [{ phase := CompilerPhase.semantic, message := message, position := position,
         variableName := variableName }] }

/-- `semantic.ts` `getResolvedType`: an assignment's type is its value's. -/
def getResolvedType : ASTNode → Option DataType
  | ASTNode.Assignment _ v _ => getResolvedType v
  | ASTNode.BinaryExpr _ _ _ _ rt => rt
  | ASTNode.UnaryExpr _ _ _ rt => rt
  | ASTNode.Literal _ _ _ rt => rt
  | ASTNode.Variable _ _ rt => rt

/-- `analyzeNode`: exhaustive dispatch on the node kind. The five per-kind
methods of `class SemanticAnalyzer` are the five branches here (a single
structural recursion so that the definition computes):
`analyzeAssignment`, `analyzeBinaryExpr`, `analyzeUnaryExpr`,
`analyzeLiteral`, `analyzeVariable`. -/
def analyzeNode : ASTNode → SemState → ASTNode × SemState
  | ASTNode.Assignment name value position, st =>
    -- analyzeAssignment: resolve the value; when it has a type, upsert a
    -- SymbolEntry keyed by the name (unconditional overwrite); when it has
    -- no type, leave the symbol table untouched.
    let r := analyzeNode value st
    (match getResolvedType r.1 with
     | some t =>
       (ASTNode.Assignment name r.1 position,
        { r.2 with
          symbolTable := mapSet r.2.symbolTable name
            { name := name, type := t, definedAt := position } })
     | none => (ASTNode.Assignment name r.1 position, r.2))
  | ASTNode.BinaryExpr operator left right position _, st =>
    -- analyzeBinaryExpr: resolve left then right; `/` is always Float, any
    -- Float operand promotes to Float, two Integers stay Integer; an
    -- unresolved operand leaves the result unresolved.
    let lr := analyzeNode left st
    let rr := analyzeNode right lr.2
    let resolvedType : Option DataType :=
      match getResolvedType lr.1, getResolvedType rr.1 with
      | some lt, some rt =>
        if operator = ['/'] then some DataType.Float
        else if lt = DataType.Float ∨ rt = DataType.Float then some DataType.Float
        else some DataType.Integer
      | _, _ => none
    (ASTNode.BinaryExpr operator lr.1 rr.1 position resolvedType, rr.2)
  | ASTNode.UnaryExpr operator operand position _, st =>
    -- analyzeUnaryExpr: the operand's type, absent propagating as absent.
    let r := analyzeNode operand st
    (ASTNode.UnaryExpr operator r.1 position (getResolvedType r.1), r.2)
  | ASTNode.Literal value dataType position _, st =>
    -- analyzeLiteral: copy dataType through to resolvedType.
    (ASTNode.Literal value dataType position (some dataType), st)
  | ASTNode.Variable name position rt0, st =>
    -- analyzeVariable: look the name up; if absent, record one
    -- "Undefined variable" error and return the node unchanged (no
    -- resolvedType); if present, annotate with the entry's type.
    (match mapGet st.symbolTable name with
     | none =>
       (ASTNode.Variable name position rt0,
        addSemError st ("Undefined variable '".toList ++ name ++ "'".toList) position (some name))
     | some entry => (ASTNode.Variable name position (some entry.type), st))

/-- The `for (const node of ast)` loop of `analyze`: each statement is fully
resolved (symbol-table side effects included) before the next is visited. -/
def analyzeForest : List ASTNode → SemState → List ASTNode × SemState
  | [], st => ([], st)
  | n :: rest, st =>
    let r := analyzeNode n st
    let rr := analyzeForest rest r.2
    (r.1 :: rr.1, rr.2)

/-- `semantic.ts` `SemanticResult`. -/
structure SemanticResult where
  symbolTable : SymbolTable
  annotatedAst : List ASTNode
  errors : List CompilerError
  deriving DecidableEq, Repr

/-- `semantic.ts` `analyze(ast)`: run the forest loop from an empty symbol
table and no errors. -/
def analyze (ast : List ASTNode) : SemanticResult :=
  let r := analyzeForest ast { symbolTable := [], errors := [] }
  { symbolTable := r.2.symbolTable, annotatedAst := r.1, errors := r.2.errors }

/-- The 13 valid token kinds, as the spec's token-coverage property
enumerates them. -/
def validTokenTypes : List TokenType :=
  [TokenType.INTEGER, TokenType.FLOAT, TokenType.IDENTIFIER, TokenType.PLUS,
   TokenType.MINUS, TokenType.STAR, TokenType.SLASH, TokenType.CARET,
   TokenType.LPAREN, TokenType.RPAREN, TokenType.EQUALS, TokenType.EOF,
   TokenType.ERROR]

/-- Whether every expression node of the tree carries a `resolvedType`
annotation (an `Assignment` has no annotation of its own; its value is
checked instead, mirroring `getResolvedType`). -/
def allAnnotated : ASTNode → Bool
  | ASTNode.Assignment _ v _ => allAnnotated v
  | ASTNode.BinaryExpr _ l r _ rt => rt.isSome && (allAnnotated l && allAnnotated r)
  | ASTNode.UnaryExpr _ o _ rt => rt.isSome && allAnnotated o
  | ASTNode.Literal _ _ _ rt => rt.isSome
  | ASTNode.Variable _ _ rt => rt.isSome

/-- `allAnnotated` over a statement sequence. -/
def allAnnotatedForest (l : List ASTNode) : Bool :=
  l.all allAnnotated

/-- The tree with every `resolvedType` annotation removed: what remains of a
node once the semantic analyzer's annotations are stripped away. Both the
analyzer's input and its output erase to the same tree exactly when the
analyzer only fills annotations in, never altering the underlying nodes. -/
def eraseTypes : ASTNode → ASTNode
  | ASTNode.Assignment n v p => ASTNode.Assignment n (eraseTypes v) p
  | ASTNode.BinaryExpr op l r p _ => ASTNode.BinaryExpr op (eraseTypes l) (eraseTypes r) p none
  | ASTNode.UnaryExpr op o p _ => ASTNode.UnaryExpr op (eraseTypes o) p none
  | ASTNode.Literal v d p _ => ASTNode.Literal v d p none
  | ASTNode.Variable n p _ => ASTNode.Variable n p none

/-- `eraseTypes` over a statement sequence. -/
def eraseTypesForest (l : List ASTNode) : List ASTNode :=
  l.map eraseTypes

/-- An INTEGER token carrying the literal value `v`, on line 1 at column
`col`. The parser reads an INTEGER token's value from `literal`, never from
its lexeme, so the lexeme is left empty in these precedence-test inputs. -/
def intToken (v : ℚ) (col : Nat) : Token :=
  { type := TokenType.INTEGER, lexeme := [], position := ⟨1, col⟩, literal := some v }

/-- An operator or punctuation token with its lexeme, on line 1 at `col`. -/
def opToken (t : TokenType) (lexeme : List Char) (col : Nat) : Token :=
  { type := t, lexeme := lexeme, position := ⟨1, col⟩ }

/-- An EOF token on line 1 at column `col`. -/
def endToken (col : Nat) : Token :=
  { type := TokenType.EOF, lexeme := [], position := ⟨1, col⟩ }

/-- The Literal node the parser builds from `intToken v col`. -/
def intLit (v : ℚ) (col : Nat) : ASTNode :=
  ASTNode.Literal v DataType.Integer ⟨1, col⟩ none

/-- The parser-state invariant behind "at most one syntax error": an ok
return leaves the error list untouched (the parser pushes an error only
right before throwing), and a throw leaves it untouched (fuel exhaustion
only, unreachable from `parse`) or appends exactly one error. -/
def ErrInv {α : Type} (s : PState) : Except PState (α × PState) → Prop
  | Except.ok p => p.2.errors = s.errors
  | Except.error s' => s'.errors = s.errors ∨ ∃ e, s'.errors = s.errors ++ [e]

/-!
Helper lemmas. Each `scanToken` step consumes at least one character, so
the remaining suffix shrinks; `tokenize` therefore supplies enough fuel.
-/

theorem takeDigits_rest_length (l : List Char) : (takeDigits l).2.length ≤ l.length := by
  induction l with
  | nil => simp [takeDigits]
  | cons c cs ih =>
    simp only [takeDigits]
    split
    · simpa using Nat.le_succ_of_le ih
    · simp

theorem takeAlphaNum_rest_length (l : List Char) : (takeAlphaNum l).2.length ≤ l.length := by
  induction l with
  | nil => simp [takeAlphaNum]
  | cons c cs ih =>
    simp only [takeAlphaNum]
    split
    · simpa using Nat.le_succ_of_le ih
    · simp

theorem number_rest_length (c : Char) (cs : List Char) (line col : Nat) :
    (number c cs line col).rest.length ≤ cs.length := by
  simp only [number]
  split
  · next c2 more heq =>
    split
    · dsimp only
      have h1 := takeDigits_rest_length cs
      have h2 := takeDigits_rest_length (c2 :: more)
      rw [heq] at h1
      simp only [List.length_cons] at h1 h2
      omega
    · dsimp only
      exact takeDigits_rest_length cs
  · dsimp only
    exact takeDigits_rest_length cs

theorem identifier_rest_length (c : Char) (cs : List Char) (line col : Nat) :
    (identifier c cs line col).rest.length ≤ cs.length := by
  simp only [identifier]
  exact takeAlphaNum_rest_length cs

theorem scanToken_rest_length (c : Char) (cs : List Char) (line col : Nat) :
    (scanToken c cs line col).rest.length ≤ cs.length := by
  unfold scanToken
  split
  all_goals try split_ifs
  all_goals first
    | exact number_rest_length _ cs line col
    | exact identifier_rest_length _ cs line col
    | exact Nat.le_refl _


theorem tokenType_mem_valid (t : TokenType) : t ∈ validTokenTypes := by
  cases t <;> decide

theorem number_tok_type (c : Char) (cs : List Char) (line col : Nat) (t : Token)
    (h : (number c cs line col).tok = some t) :
    t.type = TokenType.INTEGER ∨ t.type = TokenType.FLOAT := by
  simp only [number] at h
  split at h
  · split_ifs at h
    · dsimp only at h
      injection h with h2
      rw [← h2]
      right
      rfl
    · dsimp only at h
      injection h with h2
      rw [← h2]
      left
      rfl
  · dsimp only at h
    injection h with h2
    rw [← h2]
    left
    rfl

theorem identifier_tok_type (c : Char) (cs : List Char) (line col : Nat) (t : Token)
    (h : (identifier c cs line col).tok = some t) :
    t.type = TokenType.IDENTIFIER := by
  simp only [identifier] at h
  injection h with h2
  rw [← h2]

theorem scanToken_no_eof (c : Char) (cs : List Char) (line col : Nat) (t : Token)
    (h : (scanToken c cs line col).tok = some t) :
    ¬ t.type = TokenType.EOF := by
  unfold scanToken at h
  split at h
  all_goals first
    | (dsimp only [single] at h
       injection h with h2
       rw [← h2]
       simp)
    | (dsimp only at h
       exact Option.noConfusion h)
    | (split_ifs at h with hdig halpha
       · rcases number_tok_type _ _ _ _ _ h with h2 | h2 <;> simp [h2]
       · have h2 := identifier_tok_type _ _ _ _ _ h
         simp [h2]
       · dsimp only at h
         injection h with h2
         rw [← h2]
         simp)

theorem scanTokens_no_eof (fuel : Nat) :
    ∀ (chars : List Char) (line col : Nat) (t : Token),
      t ∈ (scanTokens fuel chars line col).1 → ¬ t.type = TokenType.EOF := by
  induction fuel with
  | zero =>
    intro chars line col t ht
    cases chars <;> simp [scanTokens] at ht
  | succ fuel ih =>
    intro chars line col t ht
    cases chars with
    | nil => simp [scanTokens] at ht
    | cons c cs =>
      simp only [scanTokens] at ht
      rw [List.mem_append] at ht
      rcases ht with h | h
      · rw [Option.mem_toList, Option.mem_def] at h
        exact scanToken_no_eof c cs line col t h
      · exact ih _ _ _ t h

/-- C5: `tokenize` is total (a Lean function), returns a non-empty sequence
for every input string (the empty string included), every emitted token's
type is one of the 13 valid `TokenType` kinds, and the sequence ends with
exactly one EOF token (empty lexeme), EOF occurring only at the last
position. -/
theorem tokenize_total_eof_terminated (source : List Char) :
    tokenize source ≠ [] ∧
    (∀ t ∈ tokenize source, t.type ∈ validTokenTypes) ∧
    ∃ toks fin, tokenize source = toks ++ [fin] ∧ fin.type = TokenType.EOF ∧
      fin.lexeme = [] ∧ ∀ t ∈ toks, ¬ t.type = TokenType.EOF := by
  refine ⟨?_, ?_, ?_⟩
  · simp [tokenize]
  · intro t _
    exact tokenType_mem_valid t.type
  · exact ⟨(scanTokens source.length source 1 1).1, _, rfl, rfl, rfl,
      fun t ht => scanTokens_no_eof source.length source 1 1 t ht⟩

/-- C8: the scanner's number sub-rule consumes a maximal run of digits and
classifies the token FLOAT exactly when the character after the digit run is
a dot followed by a digit; otherwise the token is INTEGER and the dot is not
consumed (it is left in `rest` for the next scan step). The `literal` field
holds the parsed decimal value of the lexeme in both cases. Concretely,
scanning "42." yields INTEGER(42), then an ERROR token whose lexeme is the
bare dot, then EOF; scanning "1.5" yields FLOAT with value 3/2. -/
theorem number_rule_classification :
    tokenize "42.".toList =
      [{ type := TokenType.INTEGER, lexeme := ['4', '2'], position := ⟨1, 1⟩, literal := some 42 },
       { type := TokenType.ERROR, lexeme := ['.'], position := ⟨1, 3⟩ },
       { type := TokenType.EOF, lexeme := [], position := ⟨1, 4⟩ }] ∧
    (tokenize "1.5".toList =
      [{ type := TokenType.FLOAT, lexeme := ['1', '.', '5'], position := ⟨1, 1⟩,
         literal := some (parseFloat ['1', '.', '5']) },
       { type := TokenType.EOF, lexeme := [], position := ⟨1, 4⟩ }] ∧
     parseFloat ['1', '.', '5'] = 3 / 2) ∧
    ∀ (c : Char) (cs : List Char) (line col : Nat),
      ∃ t, (number c cs line col).tok = some t ∧
        t.literal = some (parseFloat t.lexeme) ∧
        (t.type = TokenType.FLOAT ↔
          ∃ c2 r, (takeDigits cs).2 = '.' :: c2 :: r ∧ isDigit c2 = true) ∧
        (¬ t.type = TokenType.FLOAT →
          t.type = TokenType.INTEGER ∧
          (number c cs line col).rest = (takeDigits cs).2 ∧
          t.lexeme = c :: (takeDigits cs).1) := by
  refine ⟨by decide, ⟨by rfl, by simp [parseFloat, digitsVal]; norm_num⟩, ?_⟩
  intro c cs line col
  rcases htd : takeDigits cs with ⟨ds, rest⟩
  simp only [number, htd]
  split
  · next _x c2 more =>
    split_ifs with hd
    · refine ⟨_, rfl, rfl, ?_, ?_⟩
      · exact ⟨fun _ => ⟨c2, more, rfl, hd⟩, fun _ => rfl⟩
      · intro hco
        exact absurd rfl hco
    · refine ⟨_, rfl, rfl, ?_, ?_⟩
      · refine ⟨fun hco => absurd hco (by simp), ?_⟩
        rintro ⟨c2x, rx, heqx, hdx⟩
        injection heqx with h1 h2
        injection h2 with h3 h4
        rw [← h3] at hdx
        exact absurd hdx hd
      · intro _
        exact ⟨rfl, rfl, rfl⟩
  · next hno =>
    refine ⟨_, rfl, rfl, ?_, ?_⟩
    · refine ⟨fun hco => absurd hco (by simp), ?_⟩
      rintro ⟨c2x, rx, heqx, _⟩
      exact absurd heqx (fun hh => hno c2x rx hh)
    · intro _
      exact ⟨rfl, rfl, rfl⟩

/-- C2 (code-bug evidence): after a statement, the parser performs no
trailing-token check at all — `1 + 2 3` and `x + y w * 2` each parse as two
separate statements with zero syntax errors, instead of producing the
"unexpected token after expression" error that the repository's own parser
tests and documentation describe. -/
theorem parse_trailing_tokens_accepted :
    (parse (tokenize "1 + 2 3".toList)).errors = [] ∧
    (parse (tokenize "1 + 2 3".toList)).ast =
      [ASTNode.BinaryExpr ['+'] (ASTNode.Literal 1 DataType.Integer ⟨1, 1⟩ none)
        (ASTNode.Literal 2 DataType.Integer ⟨1, 5⟩ none) ⟨1, 3⟩ none,
       ASTNode.Literal 3 DataType.Integer ⟨1, 7⟩ none] ∧
    (parse (tokenize "x + y w * 2".toList)).errors = [] ∧
    (parse (tokenize "x + y w * 2".toList)).ast =
      [ASTNode.BinaryExpr ['+'] (ASTNode.Variable ['x'] ⟨1, 1⟩ none)
        (ASTNode.Variable ['y'] ⟨1, 5⟩ none) ⟨1, 3⟩ none,
       ASTNode.BinaryExpr ['*'] (ASTNode.Variable ['w'] ⟨1, 7⟩ none)
        (ASTNode.Literal 2 DataType.Integer ⟨1, 11⟩ none) ⟨1, 9⟩ none] := by
  refine ⟨by decide, by decide, by decide, by decide⟩

set_option maxHeartbeats 3200000 in
/-- C4: the parser respects precedence and associativity for arbitrary
operand values: `a ^ b ^ c` parses right-associated as `a ^ (b ^ c)`,
`a - b - c` parses left-associated as `(a - b) - c`, `a + b * c` parses as
`a + (b * c)` (multiplicative binds tighter), and explicit parentheses
override the defaults (`(a + b) * c` parses as written). The structural
equalities below imply the spec's numeric-evaluation phrasing: evaluating
each parsed tree equals direct evaluation of its parenthesized form. -/
theorem parse_precedence_associativity (a b c : ℚ) :
    (parse [intToken a 1, opToken TokenType.CARET ['^'] 2, intToken b 3,
            opToken TokenType.CARET ['^'] 4, intToken c 5, endToken 6]).ast =
      [ASTNode.BinaryExpr ['^'] (intLit a 1)
        (ASTNode.BinaryExpr ['^'] (intLit b 3) (intLit c 5) ⟨1, 4⟩ none) ⟨1, 2⟩ none] ∧
    (parse [intToken a 1, opToken TokenType.MINUS ['-'] 2, intToken b 3,
            opToken TokenType.MINUS ['-'] 4, intToken c 5, endToken 6]).ast =
      [ASTNode.BinaryExpr ['-']
        (ASTNode.BinaryExpr ['-'] (intLit a 1) (intLit b 3) ⟨1, 2⟩ none)
        (intLit c 5) ⟨1, 4⟩ none] ∧
    (parse [intToken a 1, opToken TokenType.PLUS ['+'] 2, intToken b 3,
            opToken TokenType.STAR ['*'] 4, intToken c 5, endToken 6]).ast =
      [ASTNode.BinaryExpr ['+'] (intLit a 1)
        (ASTNode.BinaryExpr ['*'] (intLit b 3) (intLit c 5) ⟨1, 4⟩ none) ⟨1, 2⟩ none] ∧
    (parse [opToken TokenType.LPAREN ['('] 1, intToken a 2, opToken TokenType.PLUS ['+'] 3,
            intToken b 4, opToken TokenType.RPAREN [')'] 5, opToken TokenType.STAR ['*'] 6,
            intToken c 7, endToken 8]).ast =
      [ASTNode.BinaryExpr ['*']
        (ASTNode.BinaryExpr ['+'] (intLit a 2) (intLit b 4) ⟨1, 3⟩ none)
        (intLit c 7) ⟨1, 6⟩ none] := by
  exact ⟨rfl, rfl, rfl, rfl⟩

/-- C10: a run of ERROR tokens at a statement boundary is skipped silently —
`@ 1 + 2` parses to the single expression `1 + 2` with zero syntax errors
and no AST node for the `@` — while an ERROR token in the middle of an
expression makes `parsePrimary` record the "Expected expression" syntax
error (here for `1 + @ 2`, whose `actual` field is ERROR) and parsing stops
with an empty AST. The last conjunct is the general skip step: whenever the
cursor sits on an ERROR token, `parseStatement` just advances past it. -/
theorem parse_skips_error_tokens_at_statement_boundary :
    (parse (tokenize "@ 1 + 2".toList)).errors = [] ∧
    (parse (tokenize "@ 1 + 2".toList)).ast =
      [ASTNode.BinaryExpr ['+'] (ASTNode.Literal 1 DataType.Integer ⟨1, 3⟩ none)
        (ASTNode.Literal 2 DataType.Integer ⟨1, 7⟩ none) ⟨1, 5⟩ none] ∧
    (parse (tokenize "1 + @ 2".toList)).errors =
      [{ phase := CompilerPhase.syntaxPhase, message := "Expected expression".toList,
         position := ⟨1, 5⟩, expected := some "expression".toList,
         actual := some "ERROR".toList }] ∧
    (parse (tokenize "1 + @ 2".toList)).ast = [] ∧
    ∀ (tokens : List Token) (fuel : Nat) (s : PState),
      check tokens s TokenType.ERROR = true →
      parseStatement tokens (fuel + 1) s = parseStatement tokens fuel (advance tokens s).2 := by
  refine ⟨by decide, by decide, by decide, by decide, ?_⟩
  intro tokens fuel s h
  rw [parseStatement]
  rw [if_pos h]

theorem mapGet_mapSet (m : SymbolTable) (k : List Char) (v : SymbolEntry) :
    mapGet (mapSet m k v) k = some v := by
  induction m with
  | nil => simp [mapSet, mapGet]
  | cons p rest ih =>
    obtain ⟨kx, vx⟩ := p
    simp only [mapSet]
    split_ifs with h
    · simp [mapGet]
    · simp only [mapGet]
      rw [if_neg h]
      exact ih

/-- C1: for a BinaryExpr whose operands both resolved to a type, the
analyzer assigns Float when the operator is division, otherwise Float when
either operand is Float and Integer when both are Integer. In particular the
whole pipeline on "4 / 2" annotates the root with Float even though both
literals are Integer. -/
theorem binary_type_promotion :
    (∀ (operator : List Char) (left right : ASTNode) (position : Position)
        (rt0 : Option DataType) (st : SemState) (lt rt : DataType),
        getResolvedType (analyzeNode left st).1 = some lt →
        getResolvedType (analyzeNode right (analyzeNode left st).2).1 = some rt →
        getResolvedType
            (analyzeNode (ASTNode.BinaryExpr operator left right position rt0) st).1 =
          some (if operator = ['/'] then DataType.Float
                else if lt = DataType.Float ∨ rt = DataType.Float then DataType.Float
                else DataType.Integer)) ∧
    (analyze (parse (tokenize "4 / 2".toList)).ast).annotatedAst =
      [ASTNode.BinaryExpr ['/']
        (ASTNode.Literal 4 DataType.Integer ⟨1, 1⟩ (some DataType.Integer))
        (ASTNode.Literal 2 DataType.Integer ⟨1, 5⟩ (some DataType.Integer))
        ⟨1, 3⟩ (some DataType.Float)] := by
  constructor
  · intro operator left right position rt0 st lt rt h1 h2
    simp only [analyzeNode]
    rw [h1, h2]
    simp only [getResolvedType]
    split_ifs <;> rfl
  · decide

/-- C6: analyzing an assignment whose value resolved to a type T writes the
entry (name, T, assignment position) into the symbol table, overwriting any
prior entry for that name (looking the name up afterwards finds exactly the
new entry); when the value produced no type, the symbol table is untouched.
Concretely, "x = 5" then "x = 3.14" leaves a single entry for x of type
Float defined at line 2, and "x = y" (undefined y) leaves the table empty. -/
theorem assignment_symbol_table_upsert :
    (∀ (name : List Char) (value : ASTNode) (position : Position) (st : SemState)
        (av : ASTNode) (st1 : SemState) (T : DataType),
        analyzeNode value st = (av, st1) →
        getResolvedType av = some T →
        analyzeNode (ASTNode.Assignment name value position) st =
          (ASTNode.Assignment name av position, { st1 with symbolTable := mapSet st1.symbolTable name ⟨name, T, position⟩ }) ∧
        mapGet (mapSet st1.symbolTable name ({ name := name, type := T, definedAt := position }))
            name =
          some { name := name, type := T, definedAt := position }) ∧
    (∀ (name : List Char) (value : ASTNode) (position : Position) (st : SemState)
        (av : ASTNode) (st1 : SemState),
        analyzeNode value st = (av, st1) →
        getResolvedType av = none →
        analyzeNode (ASTNode.Assignment name value position) st =
          (ASTNode.Assignment name av position, st1)) ∧
    (analyze (parse (tokenize "x = 5\nx = 3.14".toList)).ast).symbolTable =
      [("x".toList, { name := "x".toList, type := DataType.Float, definedAt := ⟨2, 1⟩ })] ∧
    (analyze (parse (tokenize "x = y".toList)).ast).symbolTable = [] := by
  refine ⟨?_, ?_, by decide, by decide⟩
  · intro name value position st av st1 T h1 h2
    constructor
    · simp only [analyzeNode]
      rw [h1]
      dsimp only
      rw [h2]
    · exact mapGet_mapSet st1.symbolTable name ⟨name, T, position⟩
  · intro name value position st av st1 h1 h2
    simp only [analyzeNode]
    rw [h1]
    dsimp only
    rw [h2]

/-- C7: a Variable reference whose name is absent from the symbol table
makes the analyzer append exactly one semantic error carrying the message
"Undefined variable (name)" and `variableName := name`, and return the node
with `resolvedType` still absent; errors are appended per occurrence without
deduplication, so "x + x + x" yields three errors for the same name at the
three positions, analysis having continued past each one. -/
theorem undefined_variable_error_per_occurrence :
    (∀ (name : List Char) (position : Position) (st : SemState),
        mapGet st.symbolTable name = none →
        analyzeNode (ASTNode.Variable name position none) st =
          (ASTNode.Variable name position none,
           { st with errors := st.errors ++
               [{ phase := CompilerPhase.semantic,
                  message := "Undefined variable '".toList ++ name ++ "'".toList,
                  position := position, variableName := some name }] })) ∧
    (analyze (parse (tokenize "x + x + x".toList)).ast).errors =
      [{ phase := CompilerPhase.semantic, message := "Undefined variable 'x'".toList,
         position := ⟨1, 1⟩, variableName := some "x".toList },
       { phase := CompilerPhase.semantic, message := "Undefined variable 'x'".toList,
         position := ⟨1, 5⟩, variableName := some "x".toList },
       { phase := CompilerPhase.semantic, message := "Undefined variable 'x'".toList,
         position := ⟨1, 9⟩, variableName := some "x".toList }] := by
  constructor
  · intro name position st h
    simp only [analyzeNode]
    rw [h]
    rfl
  · decide

theorem advance_errors (tokens : List Token) (s : PState) :
    ((advance tokens s).2).errors = s.errors := by
  unfold advance
  dsimp only
  split <;> rfl

theorem matchTok_errors (tokens : List Token) (s : PState) (ts : List TokenType) :
    ((matchTok tokens s ts).2).errors = s.errors := by
  induction ts with
  | nil => rfl
  | cons t rest ih =>
    simp only [matchTok]
    split
    · exact advance_errors tokens s
    · exact ih

theorem errInv_congr {α : Type} {s0 s : PState} (h : s0.errors = s.errors)
    {r : Except PState (α × PState)} (hr : ErrInv s0 r) : ErrInv s r := by
  cases r with
  | ok p => exact hr.trans h
  | error sx =>
    rcases hr with h1 | ⟨e, h1⟩
    · exact Or.inl (h1.trans h)
    · exact Or.inr ⟨e, by rw [h1, h]⟩

theorem expect_errInv (tokens : List Token) (s : PState) (t : TokenType) (msg : List Char) :
    ErrInv s (expect tokens s t msg) := by
  unfold expect
  split
  · exact advance_errors tokens s
  · exact Or.inr ⟨_, rfl⟩

theorem errInv_bind {α β : Type} {s : PState} {e : Except PState (α × PState)}
    {k : α × PState → Except PState (β × PState)}
    (he : ErrInv s e)
    (hk : ∀ a s1, e = Except.ok (a, s1) → s1.errors = s.errors → ErrInv s1 (k (a, s1))) :
    ErrInv s (e >>= k) := by
  cases e with
  | error sx => exact he
  | ok p =>
    obtain ⟨a, s1⟩ := p
    have h1 : s1.errors = s.errors := he
    exact errInv_congr h1 (hk a s1 rfl h1)

theorem parser_errInv (tokens : List Token) : ∀ fuel : Nat,
    (∀ s : PState, ErrInv s (parseStatement tokens fuel s)) ∧
    (∀ s : PState, ErrInv s (parseAssignment tokens fuel s)) ∧
    (∀ s : PState, ErrInv s (parseExpression tokens fuel s)) ∧
    (∀ s : PState, ErrInv s (parseAdditive tokens fuel s)) ∧
    (∀ (left : ASTNode) (s : PState), ErrInv s (parseAdditiveLoop tokens fuel left s)) ∧
    (∀ s : PState, ErrInv s (parseMultiplicative tokens fuel s)) ∧
    (∀ (left : ASTNode) (s : PState), ErrInv s (parseMultiplicativeLoop tokens fuel left s)) ∧
    (∀ s : PState, ErrInv s (parsePower tokens fuel s)) ∧
    (∀ s : PState, ErrInv s (parseUnary tokens fuel s)) ∧
    (∀ s : PState, ErrInv s (parsePrimary tokens fuel s)) := by
  intro fuel
  induction fuel with
  | zero =>
    exact ⟨fun s => Or.inl rfl, fun s => Or.inl rfl, fun s => Or.inl rfl, fun s => Or.inl rfl,
      fun l s => Or.inl rfl, fun s => Or.inl rfl, fun l s => Or.inl rfl,
      fun s => Or.inl rfl, fun s => Or.inl rfl, fun s => Or.inl rfl⟩
  | succ fuel ih =>
    obtain ⟨ihS, ihA, ihE, ihAd, ihAdL, ihM, ihML, ihP, ihU, ihPr⟩ := ih
    have hPr : ∀ s : PState, ErrInv s (parsePrimary tokens (fuel + 1) s) := by
      intro s
      simp only [parsePrimary]
      cases hm1 : matchTok tokens s [TokenType.INTEGER] with
      | mk b1 s1 =>
        have hs1 : s1.errors = s.errors := by
          have h := matchTok_errors tokens s [TokenType.INTEGER]
          rw [hm1] at h
          exact h
        cases b1 with
        | true => exact hs1
        | false =>
          dsimp only
          cases hm2 : matchTok tokens s [TokenType.FLOAT] with
          | mk b2 s2 =>
            have hs2 : s2.errors = s.errors := by
              have h := matchTok_errors tokens s [TokenType.FLOAT]
              rw [hm2] at h
              exact h
            cases b2 with
            | true => exact hs2
            | false =>
              dsimp only
              cases hm3 : matchTok tokens s [TokenType.IDENTIFIER] with
              | mk b3 s3 =>
                have hs3 : s3.errors = s.errors := by
                  have h := matchTok_errors tokens s [TokenType.IDENTIFIER]
                  rw [hm3] at h
                  exact h
                cases b3 with
                | true => exact hs3
                | false =>
                  dsimp only
                  cases hm4 : matchTok tokens s [TokenType.LPAREN] with
                  | mk b4 s4 =>
                    have hs4 : s4.errors = s.errors := by
                      have h := matchTok_errors tokens s [TokenType.LPAREN]
                      rw [hm4] at h
                      exact h
                    cases b4 with
                    | true =>
                      dsimp only
                      refine errInv_congr hs4 (errInv_bind (ihE s4) ?_)
                      intro a s5 _ _
                      exact errInv_bind (expect_errInv tokens s5 TokenType.RPAREN _)
                        (fun a2 s6 _ _ => rfl)
                    | false =>
                      dsimp only
                      exact Or.inr ⟨_, rfl⟩
    have hU : ∀ s : PState, ErrInv s (parseUnary tokens (fuel + 1) s) := by
      intro s
      simp only [parseUnary]
      cases hm : matchTok tokens s [TokenType.MINUS, TokenType.PLUS] with
      | mk b s1 =>
        have hs1 : s1.errors = s.errors := by
          have h := matchTok_errors tokens s [TokenType.MINUS, TokenType.PLUS]
          rw [hm] at h
          exact h
        cases b with
        | true =>
          dsimp only
          exact errInv_congr hs1 (errInv_bind (ihU s1) (fun a s2 _ _ => rfl))
        | false =>
          dsimp only
          exact ihPr s
    have hP : ∀ s : PState, ErrInv s (parsePower tokens (fuel + 1) s) := by
      intro s
      simp only [parsePower]
      refine errInv_bind (ihU s) ?_
      intro a s1 _ _
      cases hm : matchTok tokens s1 [TokenType.CARET] with
      | mk b s2 =>
        have hs2 : s2.errors = s1.errors := by
          have h := matchTok_errors tokens s1 [TokenType.CARET]
          rw [hm] at h
          exact h
        cases b with
        | true =>
          dsimp only
          exact errInv_congr hs2 (errInv_bind (ihP s2) (fun a2 s3 _ _ => rfl))
        | false =>
          dsimp only
          exact hs2
    have hML : ∀ (left : ASTNode) (s : PState),
        ErrInv s (parseMultiplicativeLoop tokens (fuel + 1) left s) := by
      intro left s
      simp only [parseMultiplicativeLoop]
      cases hm : matchTok tokens s [TokenType.STAR, TokenType.SLASH] with
      | mk b s1 =>
        have hs1 : s1.errors = s.errors := by
          have h := matchTok_errors tokens s [TokenType.STAR, TokenType.SLASH]
          rw [hm] at h
          exact h
        cases b with
        | true =>
          dsimp only
          exact errInv_congr hs1 (errInv_bind (ihP s1) (fun a s2 _ _ => ihML _ s2))
        | false =>
          dsimp only
          exact hs1
    have hM : ∀ s : PState, ErrInv s (parseMultiplicative tokens (fuel + 1) s) := by
      intro s
      simp only [parseMultiplicative]
      exact errInv_bind (ihP s) (fun a s1 _ _ => ihML a s1)
    have hAdL : ∀ (left : ASTNode) (s : PState),
        ErrInv s (parseAdditiveLoop tokens (fuel + 1) left s) := by
      intro left s
      simp only [parseAdditiveLoop]
      cases hm : matchTok tokens s [TokenType.PLUS, TokenType.MINUS] with
      | mk b s1 =>
        have hs1 : s1.errors = s.errors := by
          have h := matchTok_errors tokens s [TokenType.PLUS, TokenType.MINUS]
          rw [hm] at h
          exact h
        cases b with
        | true =>
          dsimp only
          exact errInv_congr hs1 (errInv_bind (ihM s1) (fun a s2 _ _ => ihAdL _ s2))
        | false =>
          dsimp only
          exact hs1
    have hAd : ∀ s : PState, ErrInv s (parseAdditive tokens (fuel + 1) s) := by
      intro s
      simp only [parseAdditive]
      exact errInv_bind (ihM s) (fun a s1 _ _ => ihAdL a s1)
    have hE : ∀ s : PState, ErrInv s (parseExpression tokens (fuel + 1) s) := by
      intro s
      simp only [parseExpression]
      exact ihAd s
    have hA : ∀ s : PState, ErrInv s (parseAssignment tokens (fuel + 1) s) := by
      intro s
      simp only [parseAssignment]
      cases ha1 : advance tokens s with
      | mk tok1 s1 =>
        have hs1 : s1.errors = s.errors := by
          have h := advance_errors tokens s
          rw [ha1] at h
          exact h
        dsimp only
        cases ha2 : advance tokens s1 with
        | mk tok2 s2 =>
          have hs2 : s2.errors = s1.errors := by
            have h := advance_errors tokens s1
            rw [ha2] at h
            exact h
          dsimp only
          exact errInv_congr (hs2.trans hs1) (errInv_bind (ihE s2) (fun a s3 _ _ => rfl))
    have hS : ∀ s : PState, ErrInv s (parseStatement tokens (fuel + 1) s) := by
      intro s
      simp only [parseStatement]
      split_ifs with h1 h2 h3
      · exact errInv_congr (advance_errors tokens s) (ihS _)
      · exact rfl
      · exact errInv_bind (ihA s) (fun a s1 _ _ => rfl)
      · exact errInv_bind (ihE s) (fun a s1 _ _ => rfl)
    exact ⟨hS, hA, hE, hAd, hAdL, hM, hML, hP, hU, hPr⟩

theorem parseLoop_errors (tokens : List Token) : ∀ (fuel : Nat) (s : PState) (acc : List ASTNode),
    (parseLoop tokens fuel s acc).2.errors = s.errors ∨
    ∃ e, (parseLoop tokens fuel s acc).2.errors = s.errors ++ [e] := by
  intro fuel
  induction fuel with
  | zero =>
    intro s acc
    exact Or.inl rfl
  | succ fuel ih =>
    intro s acc
    simp only [parseLoop]
    split
    · exact Or.inl rfl
    · cases hst : parseStatement tokens fuel s with
      | ok p =>
        obtain ⟨a, s1⟩ := p
        have hs1 : s1.errors = s.errors := by
          have h := (parser_errInv tokens fuel).1 s
          rw [hst] at h
          exact h
        cases a with
        | some stmt =>
          dsimp only
          rcases ih s1 (acc ++ [stmt]) with h | ⟨e, h⟩
          · exact Or.inl (h.trans hs1)
          · exact Or.inr ⟨e, by rw [h, hs1]⟩
        | none =>
          dsimp only
          rcases ih s1 acc with h | ⟨e, h⟩
          · exact Or.inl (h.trans hs1)
          · exact Or.inr ⟨e, by rw [h, hs1]⟩
      | error s1 =>
        have h := (parser_errInv tokens fuel).1 s
        rw [hst] at h
        exact h

/-- C3: for every token sequence, `parse` returns at most one syntax error —
the parser stops at the first failure with no recovery, and every ok-path
leaves the error list untouched. -/
theorem parse_at_most_one_error (tokens : List Token) :
    (parse tokens).errors.length ≤ 1 := by
  unfold parse
  dsimp only
  rcases parseLoop_errors tokens (10 * tokens.length + 20) ⟨0, []⟩ [] with h | ⟨e, h⟩
  · rw [h]
    simp
  · rw [h]
    simp

theorem analyzeNode_eraseTypes (n : ASTNode) :
    ∀ st : SemState, eraseTypes (analyzeNode n st).1 = eraseTypes n := by
  induction n with
  | Assignment name value position ih =>
    intro st
    simp only [analyzeNode]
    cases h : getResolvedType (analyzeNode value st).1 <;>
      simp only [eraseTypes, ih st]
  | BinaryExpr op l r p rt ihl ihr =>
    intro st
    simp only [analyzeNode]
    simp only [eraseTypes, ihl, ihr]
  | UnaryExpr op o p rt ih =>
    intro st
    simp only [analyzeNode]
    simp only [eraseTypes, ih]
  | Literal v d p rt =>
    intro st
    simp only [analyzeNode, eraseTypes]
  | Variable nm p rt =>
    intro st
    simp only [analyzeNode]
    cases h : mapGet st.symbolTable nm <;>
      simp only [eraseTypes]

theorem analyzeForest_eraseTypes (l : List ASTNode) :
    ∀ st : SemState, eraseTypesForest (analyzeForest l st).1 = eraseTypesForest l := by
  induction l with
  | nil =>
    intro st
    rfl
  | cons n rest ih =>
    intro st
    simp only [analyzeForest]
    simp only [eraseTypesForest, List.map_cons] at ih ⊢
    rw [analyzeNode_eraseTypes n st, ih]

theorem analyzeNode_errors_mono (n : ASTNode) :
    ∀ st : SemState, ∃ l, (analyzeNode n st).2.errors = st.errors ++ l := by
  induction n with
  | Assignment name value position ih =>
    intro st
    simp only [analyzeNode]
    cases h : getResolvedType (analyzeNode value st).1 <;> exact ih st
  | BinaryExpr op l r p rt ihl ihr =>
    intro st
    simp only [analyzeNode]
    obtain ⟨l1, h1⟩ := ihl st
    obtain ⟨l2, h2⟩ := ihr ((analyzeNode l st).2)
    exact ⟨l1 ++ l2, by rw [h2, h1, List.append_assoc]⟩
  | UnaryExpr op o p rt ih =>
    intro st
    simp only [analyzeNode]
    exact ih st
  | Literal v d p rt =>
    intro st
    exact ⟨[], by simp [analyzeNode]⟩
  | Variable nm p rt =>
    intro st
    simp only [analyzeNode]
    cases h : mapGet st.symbolTable nm with
    | none => exact ⟨_, rfl⟩
    | some entry => exact ⟨[], by simp⟩

theorem analyzeNode_annotated (n : ASTNode) :
    ∀ st : SemState, (analyzeNode n st).2.errors = st.errors →
      allAnnotated (analyzeNode n st).1 = true ∧
      (getResolvedType (analyzeNode n st).1).isSome = true := by
  induction n with
  | Assignment name value position ih =>
    intro st h
    have herr : (analyzeNode value st).2.errors = st.errors := by
      revert h
      simp only [analyzeNode]
      cases hg : getResolvedType (analyzeNode value st).1 <;> exact id
    obtain ⟨hv1, hv2⟩ := ih st herr
    simp only [analyzeNode]
    rcases ho : getResolvedType (analyzeNode value st).1 with _ | t
    · rw [ho] at hv2
      exact absurd hv2 (by simp)
    · refine ⟨?_, ?_⟩
      · simp only [allAnnotated]
        exact hv1
      · simp only [getResolvedType]
        rw [ho]
        rfl
  | BinaryExpr op l r p rt ihl ihr =>
    intro st h
    simp only [analyzeNode] at h ⊢
    obtain ⟨l1, h1⟩ := analyzeNode_errors_mono l st
    obtain ⟨l2, h2⟩ := analyzeNode_errors_mono r ((analyzeNode l st).2)
    have hnil : l1 = [] ∧ l2 = [] := by
      have hh := h2.symm.trans h
      rw [h1, List.append_assoc] at hh
      have hlen := congrArg List.length hh
      simp only [List.length_append] at hlen
      constructor <;> [exact List.eq_nil_of_length_eq_zero (by omega);
        exact List.eq_nil_of_length_eq_zero (by omega)]
    have hl : (analyzeNode l st).2.errors = st.errors := by
      rw [h1, hnil.1, List.append_nil]
    have hr2 : (analyzeNode r ((analyzeNode l st).2)).2.errors = (analyzeNode l st).2.errors := by
      rw [h2, hnil.2, List.append_nil]
    obtain ⟨ha1, ha2⟩ := ihl st hl
    obtain ⟨hb1, hb2⟩ := ihr ((analyzeNode l st).2) hr2
    rcases hol : getResolvedType (analyzeNode l st).1 with _ | lt
    · rw [hol] at ha2
      exact absurd ha2 (by simp)
    rcases hor : getResolvedType (analyzeNode r ((analyzeNode l st).2)).1 with _ | rt2
    · rw [hor] at hb2
      exact absurd hb2 (by simp)
    refine ⟨?_, ?_⟩
    · simp only [allAnnotated, ha1, hb1, Bool.and_true, Bool.true_and]
      split_ifs <;> rfl
    · simp only [getResolvedType]
      split_ifs <;> rfl
  | UnaryExpr op o p rt ih =>
    intro st h
    simp only [analyzeNode] at h ⊢
    obtain ⟨h1, h2⟩ := ih st h
    refine ⟨?_, ?_⟩
    · simp only [allAnnotated, h1, h2]
      rfl
    · simp only [getResolvedType]
      exact h2
  | Literal v d p rt =>
    intro st _
    simp only [analyzeNode, allAnnotated, getResolvedType]
    exact ⟨rfl, rfl⟩
  | Variable nm p rt =>
    intro st h
    simp only [analyzeNode] at h ⊢
    cases hg : mapGet st.symbolTable nm with
    | none =>
      rw [hg] at h
      dsimp only [addSemError] at h
      have hlen := congrArg List.length h
      simp only [List.length_append, List.length_cons, List.length_nil] at hlen
      omega
    | some entry =>
      constructor
      · simp [allAnnotated]
      · simp [getResolvedType]

theorem analyzeForest_errors_mono (l : List ASTNode) :
    ∀ st : SemState, ∃ e, (analyzeForest l st).2.errors = st.errors ++ e := by
  induction l with
  | nil =>
    intro st
    exact ⟨[], by simp [analyzeForest]⟩
  | cons n rest ih =>
    intro st
    simp only [analyzeForest]
    obtain ⟨l1, h1⟩ := analyzeNode_errors_mono n st
    obtain ⟨l2, h2⟩ := ih ((analyzeNode n st).2)
    exact ⟨l1 ++ l2, by rw [h2, h1, List.append_assoc]⟩

theorem analyzeForest_annotated (l : List ASTNode) :
    ∀ st : SemState, (analyzeForest l st).2.errors = st.errors →
      allAnnotatedForest (analyzeForest l st).1 = true := by
  induction l with
  | nil =>
    intro st _
    rfl
  | cons n rest ih =>
    intro st h
    simp only [analyzeForest] at h ⊢
    obtain ⟨l1, h1⟩ := analyzeNode_errors_mono n st
    obtain ⟨l2, h2⟩ := analyzeForest_errors_mono rest ((analyzeNode n st).2)
    have hnil : l1 = [] ∧ l2 = [] := by
      have hh := h2.symm.trans h
      rw [h1, List.append_assoc] at hh
      have hlen := congrArg List.length hh
      simp only [List.length_append] at hlen
      constructor <;> [exact List.eq_nil_of_length_eq_zero (by omega);
        exact List.eq_nil_of_length_eq_zero (by omega)]
    have hn : (analyzeNode n st).2.errors = st.errors := by
      rw [h1, hnil.1, List.append_nil]
    have hf : (analyzeForest rest ((analyzeNode n st).2)).2.errors =
        ((analyzeNode n st).2).errors := by
      rw [h2, hnil.2, List.append_nil]
    obtain ⟨ha, _⟩ := analyzeNode_annotated n st hn
    have hrest := ih ((analyzeNode n st).2) hf
    simp only [allAnnotatedForest, List.all_cons] at hrest ⊢
    rw [ha, hrest]
    rfl

/-- C9 counterexample: analyzing a reference to an undefined variable
returns the very same node with `resolvedType` still absent, so the
annotated tree is NOT a tree in which every visited node has been rebuilt
with `resolvedType` populated. -/
theorem analyze_leaves_undefined_variable_unannotated :
    (analyze [ASTNode.Variable ['x'] ⟨1, 1⟩ none]).annotatedAst =
      [ASTNode.Variable ['x'] ⟨1, 1⟩ none] ∧
    allAnnotatedForest (analyze [ASTNode.Variable ['x'] ⟨1, 1⟩ none]).annotatedAst = false := by
  decide

/-- C9 (amended): `analyze` returns a rebuilt tree that never alters the
underlying nodes — erasing the `resolvedType` annotations from its output
recovers exactly the input forest (erased likewise) — and when the analysis
reports no errors, every expression node of the annotated tree has its
`resolvedType` populated. (A node whose type fails to resolve, such as an
undefined variable, is returned without `resolvedType`.) -/
theorem analyze_rebuilds_preserving_structure (ast : List ASTNode) :
    eraseTypesForest (analyze ast).annotatedAst = eraseTypesForest ast ∧
    ((analyze ast).errors = [] → allAnnotatedForest (analyze ast).annotatedAst = true) := by
  constructor
  · exact analyzeForest_eraseTypes ast ⟨[], []⟩
  · intro h
    exact analyzeForest_annotated ast ⟨[], []⟩ h

end MiniMath
